import Mathlib

/-!
Verification of the framebuffer filter / palette / presentation core of
MightyMike (framebufferfilter.c, GLRender.c, the palette manager).

The C code is embedded shallowly:

* a row of 8-bit palette indices becomes `row : Nat → Nat` (positions
  `0 .. W-1` are meaningful; `W` stands for `VISIBLE_WIDTH`, which the
  sources leave as a build-time constant, so everything is parametric in it);
* the per-row smear-flag buffer `rowSmearFlags` becomes `Nat → Bool`;
* the scan state of `FilterDithering_Row` (`prev`, `me`, `ditherStart`,
  `ditherEnd`, all C `int`s) becomes a structure over `Int`, with the same
  `-1` sentinels as the source;
* output color buffers become `Nat → PColor` (flat, row-major), and writes
  become pointwise function updates.
-/

set_option autoImplicit false

namespace MightyMike

/-- Fixed dither threshold from `FilterDithering_Row`: `static const int THRESH = 2`. -/
def THRESH : Int := 2

/-- Fixed bleed length from `FilterDithering_Row`: `static const int BLEED = 1`. -/
def BLEED : Int := 1

/-- Scan state of `FilterDithering_Row` at the top of a loop iteration:
`prev`, `me` are the sliding window (`next` is reloaded from the row at the
start of every iteration, so it is not part of the state), and
`ditherStart`/`ditherEnd` delimit the open dither stride (`ditherEnd = -1`
meaning no stride is open). `flags` is the smear-flag buffer being written. -/
structure DitherState where
  prev : Int
  me : Int
  ditherStart : Int
  ditherEnd : Int
  flags : Nat → Bool

/-- The `COMMIT_STRIDE` macro: if `ditherEnd - ditherStart > THRESH`, then
`memset(rowSmearFlags + ditherStart, 1, ditherLength + BLEED)`, i.e. set every
flag at position `i` with `ditherStart ≤ i < ditherStart + ditherLength + BLEED`. -/
def commitStride (dS dE : Int) (flags : Nat → Bool) : Nat → Bool :=
  if dE - dS > THRESH then
    fun i => if dS ≤ (i : Int) ∧ (i : Int) < dS + (dE - dS) + BLEED then true else flags i
  else
    flags

/-- One iteration of the scan loop of `FilterDithering_Row` at column `x`:
reload `next`, branch on the four cases, then shift the window
(`prev = me; me = next`). -/
def rowStep (row : Nat → Nat) (x : Nat) (s : DitherState) : DitherState :=
  let next : Int := row (x + 1)
  let s' :=
    if s.me = next ∨ s.me = s.prev then
      -- contiguous solid color: commit current dither stride, break stride
      { s with flags := commitStride s.ditherStart s.ditherEnd s.flags, ditherEnd := -1 }
    else if s.prev = next then
      -- middle of dithered stride: open stride on left dither pixel if none,
      -- extend stride to right dither pixel
      { s with
        ditherStart := if s.ditherEnd < 0 then (x : Int) - 1 else s.ditherStart,
        ditherEnd := (x : Int) + 1 }
    else if (x : Int) = s.ditherEnd then
      -- pixel was used to dither previous column: let it be
      s
    else
      -- lone non-dithered pixel: commit current dither stride, break stride
      { s with flags := commitStride s.ditherStart s.ditherEnd s.flags, ditherEnd := -1 }
  { s' with prev := s.me, me := next }

/-- Run the scan loop for `n` iterations starting at column `x`. -/
def runRow (row : Nat → Nat) (x : Nat) (n : Nat) (s : DitherState) : DitherState :=
  match n with
  | 0 => s
  | n + 1 => runRow row (x + 1) n (rowStep row x s)

/-- Initial scan state of `FilterDithering_Row` over an incoming flag buffer
`flags0`: `prev = -1`, `me = indexedRow[0]`, `ditherStart = 0`,
`ditherEnd = -1`.  (`next` is initialized from `indexedRow[1]` in the source
but is overwritten before first use, so it carries no information.) -/
def ditherInit (row : Nat → Nat) (flags0 : Nat → Bool) : DitherState :=
  { prev := -1, me := (row 0 : Int), ditherStart := 0, ditherEnd := -1, flags := flags0 }

/-- `FilterDithering_Row` acting on an incoming flag buffer `flags0`:
run the loop for `x = 0 .. W-2`, then commit the last stride.  The C function
only ever writes `1`s into the buffer (via `memset`), so its effect is a
function of the incoming buffer. -/
def filterDitheringRowOn (W : Nat) (row : Nat → Nat) (flags0 : Nat → Bool) : Nat → Bool :=
  let s := runRow row 0 (W - 1) (ditherInit row flags0)
  commitStride s.ditherStart s.ditherEnd s.flags

/-- The flag row `FilterDithering_Row` produces on a clear buffer. -/
def filterDitheringRow (W : Nat) (row : Nat → Nat) : Nat → Bool :=
  filterDitheringRowOn W row (fun _ => false)

/-- A palette color as seen through the byte-addressable layout
`finalColors32` / `PackedColor` of the sources: one byte per channel.
Channel values are small naturals (bytes); the blend arithmetic
`(me + next) >> 1` on promoted bytes is `(me + next) / 2` on `Nat`. -/
structure PColor where
  r : Nat
  g : Nat
  b : Nat
  a : Nat
deriving DecidableEq, Repr

/-- Pointwise store into a flat buffer, the shallow embedding of `buf[i] = v`. -/
def writeAt {α : Type} (buf : Nat → α) (i : Nat) (v : α) : Nat → α :=
  fun j => if j = i then v else buf j

/-- Pointwise union of two flag buffers (`FilterDithering_Row` only ever
writes `1`s, so its effect on a dirty buffer is the union of its effect on a
clear buffer with the incoming contents). -/
def orFlags (f g : Nat → Bool) : Nat → Bool :=
  fun i => f i || g i

/-- One iteration of the inner loop of `IndexedFramebufferToColor_FilterDithering`
at column `x` of the row based at `base`: if the smear flag is set, write the
per-channel average of this pixel's and the right neighbor's palette colors
(the alpha byte of the destination is not written by the source, so it keeps
the destination's prior value) and clear the flag; otherwise write the direct
palette lookup. -/
def convStep (pal : Nat → PColor) (rowf : Nat → Nat) (base : Nat)
    (st : (Nat → PColor) × (Nat → Bool)) (x : Nat) : (Nat → PColor) × (Nat → Bool) :=
  let dst := st.1
  let flags := st.2
  if flags x then
    let me := pal (rowf x)
    let next := pal (rowf (x + 1))
    let old := dst (base + x)
    (writeAt dst (base + x)
      { r := (me.r + next.r) / 2, g := (me.g + next.g) / 2, b := (me.b + next.b) / 2, a := old.a },
     writeAt flags x false)
  else
    (writeAt dst (base + x) (pal (rowf x)), flags)

/-- One row of `IndexedFramebufferToColor_FilterDithering`: run
`FilterDithering_Row` on the worker's flag buffer, process columns
`0 .. W-2`, then write the last pixel with a direct palette lookup. -/
def convertRowFiltered (W : Nat) (pal : Nat → PColor) (rowf : Nat → Nat) (base : Nat)
    (st : (Nat → PColor) × (Nat → Bool)) : (Nat → PColor) × (Nat → Bool) :=
  let flags1 := filterDitheringRowOn W rowf st.2
  let st2 := (List.range (W - 1)).foldl (convStep pal rowf base) (st.1, flags1)
  (writeAt st2.1 (base + (W - 1)) (pal (rowf (W - 1))), st2.2)

/-- The pixels of row `y` of the flat row-major indexed framebuffer. -/
def rowOf (indexed : Nat → Nat) (W y : Nat) : Nat → Nat :=
  fun x => indexed (y * W + x)

/-- `IndexedFramebufferToColor_FilterDithering` over rows
`firstRow .. firstRow+numRows-1`, threading the destination buffer and the
worker's smear-flag buffer through the rows. -/
def convertFiltered (W : Nat) (pal : Nat → PColor) (indexed : Nat → Nat)
    (firstRow numRows : Nat) (st : (Nat → PColor) × (Nat → Bool)) :
    (Nat → PColor) × (Nat → Bool) :=
  (List.range numRows).foldl
    (fun st2 y =>
      convertRowFiltered W pal (rowOf indexed W (firstRow + y)) ((firstRow + y) * W) st2)
    st

/-- `IndexedFramebufferToColor_NoFilter`: plain per-pixel palette lookup over
rows `firstRow .. firstRow+numRows-1`. -/
def convertNoFilter (W : Nat) (pal : Nat → PColor) (indexed : Nat → Nat)
    (firstRow numRows : Nat) (dst : Nat → PColor) : Nat → PColor :=
  (List.range numRows).foldl
    (fun d y =>
      (List.range W).foldl
        (fun d2 x => writeAt d2 ((firstRow + y) * W + x) (pal (indexed ((firstRow + y) * W + x))))
        d)
    dst

/-- The horizontal pass of one row of `DoublePixels`: each source pixel
`src[sbase + x]` is written twice, at `dst[dbase + 2x]` and `dst[dbase + 2x + 1]`. -/
def doubleRowH (W : Nat) (src : Nat → PColor) (sbase dbase : Nat)
    (dst : Nat → PColor) : Nat → PColor :=
  (List.range W).foldl
    (fun d x =>
      writeAt (writeAt d (dbase + 2 * x) (src (sbase + x))) (dbase + 2 * x + 1) (src (sbase + x)))
    dst

/-- The `memcpy(colorx2, x2RowStart, sizeof(color_t) * VISIBLE_WIDTH * 2)` of
`DoublePixels`: copy `len` entries starting at `src0` over the entries
starting at `dst0`. -/
def copyRun (dst : Nat → PColor) (src0 dst0 len : Nat) : Nat → PColor :=
  fun i => if dst0 ≤ i ∧ i < dst0 + len then dst (src0 + (i - dst0)) else dst i

/-- `DoublePixels` over source rows `firstRow .. firstRow+numRows-1`:
for each source row, double it horizontally into the destination (which is
`2W` pixels wide, two destination rows per source row, `4W` destination
pixels consumed per source row), then duplicate the completed destination
row immediately below it. -/
def doublePixels (W : Nat) (src dst : Nat → PColor) (firstRow numRows : Nat) : Nat → PColor :=
  (List.range numRows).foldl
    (fun d y =>
      let sbase := (firstRow + y) * W
      let dbase := (firstRow + y) * (W * 4)
      let d1 := doubleRowH W src sbase dbase d
      copyRun d1 dbase (dbase + 2 * W) (2 * W))
    dst

/-- `kFrameTextureWidth` from GLRender.c. -/
def kFrameTextureWidth : Nat := 1024

/-- Outcome of renderer start-up: either a fatal abort (`GAME_ASSERT` paths)
or success, recording whether the non-fatal capability warning (`DoAlert`)
fired and the value left in `gCanDoHQStretch`. -/
inductive InitOutcome where
  | fatal (msg : String)
  | ok (warned : Bool) (canDoHQStretch : Bool)
deriving DecidableEq

/-- The capability-dependent part of `GLRender_Init`: context creation is
asserted fatal on failure; then the max texture size is compared against
`kFrameTextureWidth` — a shortfall raises only the `DoAlert` warning and
execution continues; finally `gCanDoHQStretch` is set to
`gMaxTextureSize >= 2*kFrameTextureWidth` (except on OSXPPC builds, where it
is unconditionally `false`). -/
def glRenderInit (contextOk : Bool) (maxTextureSize : Int) (osxppc : Bool) : InitOutcome :=
  if !contextOk then
    .fatal "SDL_GL_CreateContext"
  else
    let warned := decide (maxTextureSize < (kFrameTextureWidth : Int))
    let hq := if osxppc then false else decide ((2 * kFrameTextureWidth : Int) ≤ maxTextureSize)
    .ok warned hq

/-- The Mac-toolbox `RGBColor` used by the palette manager: three 16-bit
channels. -/
structure RGBColor where
  red : Nat
  green : Nat
  blue : Nat
deriving DecidableEq

/-- Modelled from the spec: `RGBColorToU32` is declared in the repository's
headers but is not among the provided sources.  Per the spec's palette model
(256 packed 32-bit `0xAARRGGBB` entries, opaque alpha as in
`InitPaletteStuff`'s `0xFF000000 | i`), it packs the high byte of each 16-bit
channel and forces alpha to `0xFF`. -/
def RGBColorToU32 (c : RGBColor) : Nat :=
  0xFF000000 + (c.red / 256) * 65536 + (c.green / 256) * 256 + c.blue / 256

/-- Modelled from the spec: `U32ToRGBColor` is declared in the repository's
headers but is not among the provided sources.  It unpacks a packed
`0xAARRGGBB` entry back to a 16-bit-per-channel `RGBColor` (each 8-bit
channel replicated to 16 bits). -/
def U32ToRGBColor (u : Nat) : RGBColor :=
  { red := u / 65536 % 256 * 257, green := u / 256 % 256 * 257, blue := u % 256 * 257 }

/-- The palette manager's mutable state: `gGamePalette`, `gBackUpPalette`
(256 packed 32-bit entries each) and `gSceenBlankedFlag`. -/
structure PaletteState where
  game : Nat → Nat
  backup : Nat → Nat
  blanked : Bool

/-- `MakeBackUpPalette`: `memcpy(gBackUpPalette, gGamePalette, ...)`. -/
def MakeBackUpPalette (s : PaletteState) : PaletteState :=
  { s with backup := s.game }

/-- `RestoreBackUpPalette`: `memcpy(gGamePalette, gBackUpPalette, ...)`. -/
def RestoreBackUpPalette (s : PaletteState) : PaletteState :=
  { s with game := s.backup }

/-- Channel-wise brightness scaling used by both fades:
`(short)((int32_t)channel * brightness / 100)`; the brightness values used
are all non-negative, so C truncating division is `Nat` division. -/
def scaleRGB (c : RGBColor) (brightness : Nat) : RGBColor :=
  { red := c.red * brightness / 100, green := c.green * brightness / 100,
    blue := c.blue * brightness / 100 }

/-- One brightness pass of a fade loop: rewrite `gGamePalette[i]` for
`i = 0 .. 254` from the scaled backup palette (entry 255 is not touched). -/
def fadePass (s : PaletteState) (brightness : Nat) : PaletteState :=
  { s with
    game := fun i =>
      if i < 255 then RGBColorToU32 (scaleRGB (U32ToRGBColor (s.backup i)) brightness)
      else s.game i }

/-- The brightness schedule of `FadeInGameCLUT`:
`for (brightness = 4; brightness <= 100; brightness += 8)`. -/
def fadeInBrightnessList : List Nat :=
  [4, 12, 20, 28, 36, 44, 52, 60, 68, 76, 84, 92, 100]

/-- The brightness schedule of `FadeOutGameCLUT`:
`for (brightness = 96; brightness >= 0; brightness -= 8)`. -/
def fadeOutBrightnessList : List Nat :=
  [96, 88, 80, 72, 64, 56, 48, 40, 32, 24, 16, 8, 0]

/-- `FadeInGameCLUT`: back up the palette, run the brightening passes, then
restore the palette from the backup and unblank the screen.
(`PresentIndexedFramebuffer` and `Wait` do not touch the palette state.) -/
def FadeInGameCLUT (s : PaletteState) : PaletteState :=
  let s1 := MakeBackUpPalette s
  let s2 := fadeInBrightnessList.foldl fadePass s1
  let s3 := RestoreBackUpPalette s2
  { s3 with blanked := false }

/-- `FadeOutGameCLUT`: if the screen is already blanked, do nothing;
otherwise back up the palette, run the darkening passes (ending at
brightness 0), and mark the screen blanked.  The backup is not restored. -/
def FadeOutGameCLUT (s : PaletteState) : PaletteState :=
  if s.blanked then s
  else
    let s1 := MakeBackUpPalette s
    let s2 := fadeOutBrightnessList.foldl fadePass s1
    { s2 with blanked := true }

/-! ### Lemmas about the dither-stride detector -/

theorem runRow_succ_right (row : Nat → Nat) (x n : Nat) (s : DitherState) :
    runRow row x (n + 1) s = rowStep row (x + n) (runRow row x n s) := by
  induction n generalizing x s with
  | zero => rfl
  | succ n ih =>
    show runRow row (x + 1) (n + 1) (rowStep row x s) = _
    rw [ih]
    have : x + 1 + n = x + (n + 1) := by omega
    rw [this]
    rfl

theorem runRow_append (row : Nat → Nat) (m n x : Nat) (s : DitherState) :
    runRow row x (m + n) s = runRow row (x + m) n (runRow row x m s) := by
  induction m generalizing x s with
  | zero => rw [Nat.zero_add, Nat.add_zero]; rfl
  | succ m ih =>
    have h1 : m + 1 + n = (m + n) + 1 := by omega
    rw [h1]
    show runRow row (x + 1) (m + n) (rowStep row x s) = _
    rw [ih]
    have h2 : x + 1 + m = x + (m + 1) := by omega
    rw [h2]
    rfl

theorem rowStep_prev (row : Nat → Nat) (x : Nat) (s : DitherState) :
    (rowStep row x s).prev = s.me := rfl

theorem rowStep_me (row : Nat → Nat) (x : Nat) (s : DitherState) :
    (rowStep row x s).me = ((row (x + 1) : Nat) : Int) := rfl

theorem commitStride_monotone {dS dE : Int} {flags : Nat → Bool} {i : Nat}
    (h : flags i = true) : commitStride dS dE flags i = true := by
  unfold commitStride
  split
  · dsimp only
    split <;> simp [h]
  · exact h

/-- Case analysis on one loop iteration: either the stride is committed and
broken (solid-color / lone-pixel cases), or it is opened/extended (the
`prev == next` case), or the state is left alone (the `x == ditherEnd` case,
which can only fire when `x` equals the current `ditherEnd`).  The `prev`
and `me` fields always shift. -/
theorem rowStep_shape (row : Nat → Nat) (x : Nat) (s : DitherState) :
    ((rowStep row x s).flags = commitStride s.ditherStart s.ditherEnd s.flags ∧
      (rowStep row x s).ditherEnd = -1 ∧
      (rowStep row x s).ditherStart = s.ditherStart) ∨
    ((rowStep row x s).flags = s.flags ∧
      (rowStep row x s).ditherEnd = (x : Int) + 1 ∧
      (rowStep row x s).ditherStart =
        (if s.ditherEnd < 0 then (x : Int) - 1 else s.ditherStart) ∧
      s.prev = ((row (x + 1) : Nat) : Int)) ∨
    ((rowStep row x s).flags = s.flags ∧
      (rowStep row x s).ditherEnd = s.ditherEnd ∧
      (rowStep row x s).ditherStart = s.ditherStart ∧
      (x : Int) = s.ditherEnd) := by
  unfold rowStep
  dsimp only
  split
  · exact Or.inl ⟨rfl, rfl, rfl⟩
  · split
    · next h2 => exact Or.inr (Or.inl ⟨rfl, rfl, rfl, h2⟩)
    · split
      · next h3 => exact Or.inr (Or.inr ⟨rfl, rfl, rfl, h3⟩)
      · exact Or.inl ⟨rfl, rfl, rfl⟩

theorem rowStep_flags_monotone {row : Nat → Nat} {x : Nat} {s : DitherState} {i : Nat}
    (h : s.flags i = true) : (rowStep row x s).flags i = true := by
  rcases rowStep_shape row x s with ⟨hf, -⟩ | ⟨hf, -⟩ | ⟨hf, -⟩ <;>
    rw [hf] <;> first | exact commitStride_monotone h | exact h

theorem runRow_flags_monotone {row : Nat → Nat} {n x : Nat} {s : DitherState} {i : Nat}
    (h : s.flags i = true) : (runRow row x n s).flags i = true := by
  induction n generalizing x s with
  | zero => exact h
  | succ n ih => exact ih (rowStep_flags_monotone h)

theorem commitStride_sets {dS dE : Int} (flags : Nat → Bool) {i : Nat}
    (h1 : THRESH < dE - dS) (h2 : dS ≤ (i : Int)) (h3 : (i : Int) ≤ dE) :
    commitStride dS dE flags i = true := by
  unfold commitStride
  rw [if_pos h1, if_pos ⟨h2, by unfold BLEED; omega⟩]

theorem commitStride_of_le {dS dE : Int} (flags : Nat → Bool) (h : dE - dS ≤ THRESH) :
    commitStride dS dE flags = flags := by
  unfold commitStride
  rw [if_neg (by omega)]

theorem commitStride_eq_true {dS dE : Int} {flags : Nat → Bool} {i : Nat}
    (h : commitStride dS dE flags i = true) :
    (THRESH < dE - dS ∧ dS ≤ (i : Int) ∧ (i : Int) ≤ dE) ∨ flags i = true := by
  unfold commitStride at h
  by_cases hc : THRESH < dE - dS
  · rw [if_pos hc] at h
    by_cases hr : dS ≤ (i : Int) ∧ (i : Int) < dS + (dE - dS) + BLEED
    · exact Or.inl ⟨hc, hr.1, by unfold BLEED at hr; omega⟩
    · rw [if_neg hr] at h
      exact Or.inr h
  · rw [if_neg hc] at h
    exact Or.inr h

/-- The solid-color / lone-pixel branches in full: when `me == next` or
`me == prev` the first branch fires; it commits the stride and breaks it. -/
theorem rowStep_case1 (row : Nat → Nat) (x : Nat) (s : DitherState)
    (h : s.me = ((row (x + 1) : Nat) : Int) ∨ s.me = s.prev) :
    rowStep row x s =
      { s with flags := commitStride s.ditherStart s.ditherEnd s.flags,
               ditherEnd := -1, prev := s.me, me := ((row (x + 1) : Nat) : Int) } := by
  unfold rowStep
  dsimp only
  rw [if_pos h]

/-- The dither-stride branch in full: when `me` differs from both neighbors
but `prev == next`, the stride is opened (if none) and extended. -/
theorem rowStep_case2 (row : Nat → Nat) (x : Nat) (s : DitherState)
    (h1 : ¬ s.me = ((row (x + 1) : Nat) : Int)) (h2 : ¬ s.me = s.prev)
    (h3 : s.prev = ((row (x + 1) : Nat) : Int)) :
    rowStep row x s =
      { s with
        ditherStart := if s.ditherEnd < 0 then (x : Int) - 1 else s.ditherStart,
        ditherEnd := (x : Int) + 1,
        prev := s.me, me := ((row (x + 1) : Nat) : Int) } := by
  unfold rowStep
  dsimp only
  rw [if_neg (by tauto), if_pos h3]

theorem entry_me (row : Nat → Nat) (f0 : Nat → Bool) (x : Nat) :
    (runRow row 0 x (ditherInit row f0)).me = ((row x : Nat) : Int) := by
  induction x with
  | zero => rfl
  | succ x ih =>
    rw [runRow_succ_right, rowStep_me, Nat.zero_add]

theorem entry_prev (row : Nat → Nat) (f0 : Nat → Bool) (x : Nat) (hx : 1 ≤ x) :
    (runRow row 0 x (ditherInit row f0)).prev = ((row (x - 1) : Nat) : Int) := by
  obtain ⟨y, rfl⟩ : ∃ y, x = y + 1 := ⟨x - 1, by omega⟩
  rw [runRow_succ_right, rowStep_prev, Nat.add_sub_cancel]
  exact entry_me row f0 y

/-- Invariant of the scan state at the top of iteration `x`:
`ditherEnd` never exceeds the current column, `ditherStart` is never
negative (the claim C10 concern: the `-1` sentinel in `prev` can never match
a pixel value, so a stride cannot open at column 0), an open stride is at
least `THRESH` long from start to end, every flag set so far was either set
on entry or lies strictly left of the current column, and `prev` is the
sentinel exactly at column 0. -/
theorem entry_inv (row : Nat → Nat) (f0 : Nat → Bool) (x : Nat) :
    (runRow row 0 x (ditherInit row f0)).ditherEnd ≤ (x : Int) ∧
    0 ≤ (runRow row 0 x (ditherInit row f0)).ditherStart ∧
    (0 ≤ (runRow row 0 x (ditherInit row f0)).ditherEnd →
      (runRow row 0 x (ditherInit row f0)).ditherStart + THRESH ≤
        (runRow row 0 x (ditherInit row f0)).ditherEnd) ∧
    (∀ i, (runRow row 0 x (ditherInit row f0)).flags i = true →
      f0 i = true ∨ (i : Int) < (x : Int)) := by
  induction x with
  | zero =>
    refine ⟨by simp [runRow, ditherInit, THRESH], by simp [runRow, ditherInit], ?_, ?_⟩
    · intro h
      simp [runRow, ditherInit] at h
    · intro i h
      exact Or.inl h
  | succ x ih =>
    obtain ⟨ihE, ihS, ihT, ihF⟩ := ih
    have hprev0 : x = 0 → (runRow row 0 x (ditherInit row f0)).prev = -1 := by
      intro h; subst h; rfl
    rw [runRow_succ_right, Nat.zero_add]
    rcases rowStep_shape row x (runRow row 0 x (ditherInit row f0)) with
      ⟨hf, hE, hS⟩ | ⟨hf, hE, hS, hpv⟩ | ⟨hf, hE, hS, hxE⟩
    · refine ⟨by rw [hE]; push_cast; omega, by rw [hS]; exact ihS, by rw [hE]; omega, ?_⟩
      intro i h
      rw [hf] at h
      rcases commitStride_eq_true h with ⟨h1, h2, h3⟩ | h4
      · right
        have := ihS
        have := ihE
        push_cast
        omega
      · rcases ihF i h4 with h5 | h5
        · exact Or.inl h5
        · right; push_cast; omega
    · have hx1 : 1 ≤ x := by
        by_contra hx0
        have hx0 : x = 0 := by omega
        have := hprev0 hx0
        rw [this] at hpv
        have : (0 : Int) ≤ ((row (x + 1) : Nat) : Int) := by positivity
        omega
      refine ⟨by rw [hE]; push_cast; omega, ?_, ?_, ?_⟩
      · rw [hS]
        split
        · omega
        · exact ihS
      · rw [hE, hS]
        intro _
        by_cases hneg : (runRow row 0 x (ditherInit row f0)).ditherEnd < 0
        · rw [if_pos hneg]
          unfold THRESH
          omega
        · rw [if_neg hneg]
          have h6 := ihT (by omega)
          unfold THRESH at h6 ⊢
          omega
      · intro i h
        rw [hf] at h
        rcases ihF i h with h5 | h5
        · exact Or.inl h5
        · right; push_cast; omega
    · refine ⟨by rw [hE]; omega, by rw [hS]; exact ihS, ?_, ?_⟩
      · rw [hE, hS]
        intro h
        exact ihT h
      · intro i h
        rw [hf] at h
        rcases ihF i h with h5 | h5
        · exact Or.inl h5
        · right; push_cast; omega

/-- Once a stride longer than `THRESH` is open and the scan has reached its
end, every position inside it ends up flagged, whatever the rest of the row
looks like: the stride can only be extended (keeping its start), committed
(writing the flags), or left alone — it is never discarded uncommitted, and
the final `COMMIT_STRIDE` flushes it if it survives to the end of the row. -/
theorem stride_persists (row : Nat → Nat) :
    ∀ (n x : Nat) (s : DitherState) (i : Nat),
      0 ≤ s.ditherEnd → THRESH < s.ditherEnd - s.ditherStart → s.ditherEnd ≤ (x : Int) →
      s.ditherStart ≤ (i : Int) → (i : Int) ≤ s.ditherEnd →
      commitStride (runRow row x n s).ditherStart (runRow row x n s).ditherEnd
        (runRow row x n s).flags i = true := by
  intro n
  induction n with
  | zero =>
    intro x s i h0 h1 _ h3 h4
    exact commitStride_sets _ h1 h3 h4
  | succ n ih =>
    intro x s i h0 h1 h2 h3 h4
    show commitStride (runRow row (x + 1) n (rowStep row x s)).ditherStart
      (runRow row (x + 1) n (rowStep row x s)).ditherEnd
      (runRow row (x + 1) n (rowStep row x s)).flags i = true
    rcases rowStep_shape row x s with
      ⟨hf, hE, hS⟩ | ⟨hf, hE, hS, hpv⟩ | ⟨hf, hE, hS, hxE⟩
    · have hset : (rowStep row x s).flags i = true := by
        rw [hf]
        exact commitStride_sets _ h1 h3 h4
      exact commitStride_monotone (runRow_flags_monotone hset)
    · have hS' : (rowStep row x s).ditherStart = s.ditherStart := by
        rw [hS, if_neg (by omega)]
      refine ih (x + 1) (rowStep row x s) i ?_ ?_ ?_ ?_ ?_
      · rw [hE]; omega
      · rw [hE, hS']; omega
      · rw [hE]; push_cast; omega
      · rw [hS']; exact h3
      · rw [hE]; omega
    · refine ih (x + 1) (rowStep row x s) i ?_ ?_ ?_ ?_ ?_
      · rw [hE]; exact h0
      · rw [hE, hS]; exact h1
      · rw [hE]; push_cast; omega
      · rw [hS]; exact h3
      · rw [hE]; exact h4

/-- While the scan walks the interior of an alternating two-value run
(`prev == next` at every column), every iteration takes the stride branch:
`ditherEnd` follows the column and `ditherStart` and the flags stay put. -/
theorem alt_run (row : Nat → Nat) (p q : Nat)
    (halt : ∀ i, p ≤ i → i + 2 ≤ q → row i = row (i + 2))
    (hne : ∀ i, p ≤ i → i + 1 ≤ q → row i ≠ row (i + 1)) :
    ∀ (k x : Nat) (s : DitherState),
      p + 1 ≤ x → x + k ≤ q →
      s.me = ((row x : Nat) : Int) → s.prev = ((row (x - 1) : Nat) : Int) →
      s.ditherEnd = (x : Int) →
      (runRow row x k s).ditherEnd = ((x + k : Nat) : Int) ∧
      (runRow row x k s).ditherStart = s.ditherStart ∧
      (runRow row x k s).flags = s.flags ∧
      (runRow row x k s).me = ((row (x + k) : Nat) : Int) ∧
      (runRow row x k s).prev = ((row (x + k - 1) : Nat) : Int) := by
  intro k
  induction k with
  | zero =>
    intro x s hx hxk hme hprev hdE
    exact ⟨hdE, rfl, rfl, hme, hprev⟩
  | succ k ih =>
    intro x s hx hxk hme hprev hdE
    have hx1 : 1 ≤ x := by omega
    have hstep : rowStep row x s =
        { s with
          ditherStart := if s.ditherEnd < 0 then (x : Int) - 1 else s.ditherStart,
          ditherEnd := (x : Int) + 1,
          prev := s.me, me := ((row (x + 1) : Nat) : Int) } := by
      refine rowStep_case2 row x s ?_ ?_ ?_
      · rw [hme]
        intro hcast
        exact hne x (by omega) (by omega) (Nat.cast_injective hcast)
      · rw [hme, hprev]
        intro hcast
        have h5 := hne (x - 1) (by omega) (by omega)
        rw [show x - 1 + 1 = x from by omega] at h5
        exact h5 (Nat.cast_injective hcast).symm
      · rw [hprev]
        have h5 := halt (x - 1) (by omega) (by omega)
        rw [show x - 1 + 2 = x + 1 from by omega] at h5
        rw [h5]
    have hnoneg : ¬ s.ditherEnd < 0 := by rw [hdE]; omega
    have hunfold : runRow row x (k + 1) s = runRow row (x + 1) k (rowStep row x s) := rfl
    rw [hunfold]
    have hmain := ih (x + 1) (rowStep row x s) (by omega) (by omega)
      (by rw [hstep]) (by rw [hstep]; dsimp only; rw [Nat.add_sub_cancel, hme])
      (by rw [hstep]; dsimp only; push_cast; ring)
    obtain ⟨m1, m2, m3, m4, m5⟩ := hmain
    refine ⟨?_, ?_, ?_, ?_, ?_⟩
    · rw [m1]; congr 1; omega
    · rw [m2, hstep]
      dsimp only
      rw [if_neg hnoneg]
    · rw [m3, hstep]
    · rw [m4]; congr 2; omega
    · rw [m5]; congr 2; omega

/-- On a constant stretch of the row, every iteration takes the solid-color
branch: no stride ever opens and no flag is written. -/
theorem flat_runRow (row : Nat → Nat) :
    ∀ (n x : Nat) (s : DitherState),
      (∀ j, j ≤ n → row (x + j) = row x) →
      s.me = ((row x : Nat) : Int) → s.ditherEnd = -1 → 0 ≤ s.ditherStart →
      (runRow row x n s).ditherEnd = -1 ∧
      (runRow row x n s).ditherStart = s.ditherStart ∧
      (runRow row x n s).flags = s.flags := by
  intro n
  induction n with
  | zero =>
    intro x s _ _ hdE _
    exact ⟨hdE, rfl, rfl⟩
  | succ n ih =>
    intro x s hconst hme hdE hdS
    have hnext : row (x + 1) = row x := hconst 1 (by omega)
    have hstep : rowStep row x s =
        { s with flags := commitStride s.ditherStart s.ditherEnd s.flags,
                 ditherEnd := -1, prev := s.me, me := ((row (x + 1) : Nat) : Int) } :=
      rowStep_case1 row x s (Or.inl (by rw [hme, hnext]))
    have hcommit : commitStride s.ditherStart s.ditherEnd s.flags = s.flags := by
      apply commitStride_of_le
      rw [hdE]
      unfold THRESH
      omega
    have hunfold : runRow row x (n + 1) s = runRow row (x + 1) n (rowStep row x s) := rfl
    rw [hunfold]
    have hmain := ih (x + 1) (rowStep row x s)
      (by
        intro j hj
        rw [show x + 1 + j = x + (j + 1) from by omega, hconst (j + 1) (by omega), hnext])
      (by rw [hstep])
      (by rw [hstep])
      (by rw [hstep]; dsimp only; exact hdS)
    obtain ⟨m1, m2, m3⟩ := hmain
    refine ⟨m1, ?_, ?_⟩
    · rw [m2, hstep]
    · rw [m3, hstep]
      dsimp only
      rw [hcommit]

theorem rowStep_congr {row row' : Nat → Nat} (x : Nat) (s : DitherState)
    (h : row (x + 1) = row' (x + 1)) : rowStep row x s = rowStep row' x s := by
  unfold rowStep
  rw [h]

theorem runRow_congr {row row' : Nat → Nat} :
    ∀ (n x : Nat) (s : DitherState),
      (∀ j, x < j → j ≤ x + n → row j = row' j) →
      runRow row x n s = runRow row' x n s := by
  intro n
  induction n with
  | zero => intro x s _; rfl
  | succ n ih =>
    intro x s hagree
    have h1 : runRow row x (n + 1) s = runRow row (x + 1) n (rowStep row x s) := rfl
    have h2 : runRow row' x (n + 1) s = runRow row' (x + 1) n (rowStep row' x s) := rfl
    rw [h1, h2, rowStep_congr x s (hagree (x + 1) (by omega) (by omega))]
    exact ih (x + 1) (rowStep row' x s) (fun j hj1 hj2 => hagree j (by omega) (by omega))

theorem filterDitheringRow_lt_width (W : Nat) (row : Nat → Nat) (i : Nat)
    (h : filterDitheringRow W row i = true) : i ≤ W - 1 := by
  unfold filterDitheringRow filterDitheringRowOn at h
  obtain ⟨hE, hS, -, hF⟩ := entry_inv row (fun _ => false) (W - 1)
  rcases commitStride_eq_true h with ⟨-, -, h3⟩ | h4
  · exact Nat.cast_le.mp (le_trans h3 hE)
  · rcases hF i h4 with h5 | h5
    · simp at h5
    · have h6 : i < W - 1 := by exact_mod_cast h5
      omega

end MightyMike

/-! ## Claim theorems -/

namespace MightyMike

/-- Claim C5: for every indexed row in which every pixel has the same
palette index, `FilterDithering_Row` sets no flags — the flag row it
produces is all-clear. -/
theorem C5_flat_row_all_clear (W : Nat) (row : Nat → Nat)
    (hflat : ∀ i, i < W → row i = row 0) :
    ∀ i, filterDitheringRow W row i = false := by
  intro i
  unfold filterDitheringRow filterDitheringRowOn
  have hconst : ∀ j, j ≤ W - 1 → row (0 + j) = row 0 := by
    intro j hj
    rw [Nat.zero_add]
    rcases Nat.eq_zero_or_pos W with h0 | h0
    · subst h0
      have : j = 0 := by omega
      subst this
      rfl
    · exact hflat j (by omega)
  obtain ⟨m1, m2, m3⟩ :=
    flat_runRow row (W - 1) 0 (ditherInit row (fun _ => false)) hconst rfl rfl
      (by unfold ditherInit; norm_num)
  rw [commitStride_of_le _ (by rw [m1, m2]; unfold ditherInit THRESH; dsimp only; omega), m3]
  rfl

/-- Claim C5 witness: a concrete flat row of width 5 produces no flag at
position 2 (nor anywhere else). -/
theorem C5_flat_row_all_clear_witness :
    (∀ i, i < 5 → (fun _ : Nat => 3) i = (fun _ : Nat => 3) 0) ∧
    filterDitheringRow 5 (fun _ => 3) 2 = false :=
  ⟨by decide, C5_flat_row_all_clear 5 (fun _ => 3) (by decide) 2⟩

/-- Claim C1, counterexample: the row `7,7,1,2,1,2,1,3,3` (width 9) holds a
maximal alternating two-value pattern `1,2,1,2,1` at positions 2..6 (length
5, delimited on both sides by non-alternating neighbors).  The claim asserts
the run of set flags extends one position past the pattern's end, i.e.
through position 7; but the detector flags exactly positions 2..6 —
position 7 stays clear (the `BLEED` byte of the `memset` covers the
pattern's final pixel `ditherEnd`, not one past it). -/
theorem C1_counterexample :
    filterDitheringRow 9 (fun i => [7, 7, 1, 2, 1, 2, 1, 3, 3].getD i 0) 2 = true ∧
    filterDitheringRow 9 (fun i => [7, 7, 1, 2, 1, 2, 1, 3, 3].getD i 0) 6 = true ∧
    filterDitheringRow 9 (fun i => [7, 7, 1, 2, 1, 2, 1, 3, 3].getD i 0) 7 = false := by
  decide

/-- Claim C1 as amended: for every row with an alternating two-value pattern
`A,B,A,B,...` of length at least 5 at positions `p..q` (delimited by
non-alternating neighbors or the row boundary), `FilterDithering_Row` flags
every position of the pattern — interior and endpoints; the one-pixel bleed
extends the marked run through the pattern's final pixel, not past it. -/
theorem C1_pattern_flagged (W : Nat) (row : Nat → Nat) (p q : Nat)
    (hq : q < W) (hlen : p + 4 ≤ q)
    (halt : ∀ i, p ≤ i → i + 2 ≤ q → row i = row (i + 2))
    (hne : ∀ i, p ≤ i → i + 1 ≤ q → row i ≠ row (i + 1))
    (_hleft : p = 0 ∨ row (p - 1) ≠ row (p + 1))
    (_hright : q = W - 1 ∨ row (q + 1) ≠ row (q - 1)) :
    ∀ i, p ≤ i → i ≤ q → filterDitheringRow W row i = true := by
  intro i hpi hiq
  unfold filterDitheringRow filterDitheringRowOn
  have hE1me := entry_me row (fun _ => false) (p + 1)
  have hE1prev := entry_prev row (fun _ => false) (p + 1) (by omega)
  rw [Nat.add_sub_cancel] at hE1prev
  obtain ⟨hE1E, hE1S, hE1T, -⟩ := entry_inv row (fun _ => false) (p + 1)
  -- the iteration at column p+1 opens (or extends into) the stride
  have hstep1 : rowStep row (p + 1) (runRow row 0 (p + 1) (ditherInit row (fun _ => false))) =
      { runRow row 0 (p + 1) (ditherInit row (fun _ => false)) with
        ditherStart :=
          if (runRow row 0 (p + 1) (ditherInit row (fun _ => false))).ditherEnd < 0 then
            ((p + 1 : Nat) : Int) - 1
          else (runRow row 0 (p + 1) (ditherInit row (fun _ => false))).ditherStart,
        ditherEnd := ((p + 1 : Nat) : Int) + 1,
        prev := (runRow row 0 (p + 1) (ditherInit row (fun _ => false))).me,
        me := ((row (p + 1 + 1) : Nat) : Int) } := by
    refine rowStep_case2 row (p + 1) _ ?_ ?_ ?_
    · rw [hE1me]
      intro hcast
      exact hne (p + 1) (by omega) (by omega) (Nat.cast_injective hcast)
    · rw [hE1me, hE1prev]
      intro hcast
      exact hne p (by omega) (by omega) (Nat.cast_injective hcast).symm
    · rw [hE1prev]
      have h5 := halt p (by omega) (by omega)
      rw [show p + 1 + 1 = p + 2 from by omega, h5]
  -- the opened stride starts at or left of p
  have hS1start :
      (rowStep row (p + 1) (runRow row 0 (p + 1) (ditherInit row (fun _ => false)))).ditherStart
        ≤ (p : Int) ∧
      0 ≤ (rowStep row (p + 1)
        (runRow row 0 (p + 1) (ditherInit row (fun _ => false)))).ditherStart := by
    rw [hstep1]
    dsimp only
    by_cases hneg : (runRow row 0 (p + 1) (ditherInit row (fun _ => false))).ditherEnd < 0
    · rw [if_pos hneg]
      constructor <;> push_cast <;> omega
    · rw [if_neg hneg]
      have h6 := hE1T (by omega)
      unfold THRESH at h6
      constructor <;> push_cast at * <;> omega
  -- walk the interior of the pattern: columns p+2 .. q-1
  obtain ⟨hA1, hA2, hA3, -, -⟩ :=
    alt_run row p q halt hne (q - (p + 2)) (p + 2)
      (rowStep row (p + 1) (runRow row 0 (p + 1) (ditherInit row (fun _ => false))))
      (by omega) (by omega)
      (by rw [hstep1])
      (by
        rw [hstep1]
        dsimp only
        have h7 : p + 2 - 1 = p + 1 := by omega
        rw [h7, hE1me])
      (by rw [hstep1]; dsimp only; push_cast; ring)
  -- decompose the whole scan as: up to p+1, one step, the pattern walk, the rest
  have hdecomp : W - 1 = (p + 1) + (1 + ((q - (p + 2)) + (W - 1 - q))) := by omega
  rw [hdecomp, runRow_append row (p + 1) _ 0 _, Nat.zero_add,
    runRow_append row 1 _ (p + 1) _]
  have hone : runRow row (p + 1) 1 (runRow row 0 (p + 1) (ditherInit row (fun _ => false))) =
      rowStep row (p + 1) (runRow row 0 (p + 1) (ditherInit row (fun _ => false))) := rfl
  rw [hone, show p + 1 + 1 = p + 2 from by omega,
    runRow_append row (q - (p + 2)) (W - 1 - q) (p + 2) _,
    show p + 2 + (q - (p + 2)) = q from by omega]
  -- the pending stride from the pattern persists to the end of the row
  refine stride_persists row (W - 1 - q) q _ i ?_ ?_ ?_ ?_ ?_
  · rw [hA1]
    positivity
  · rw [hA1, hA2]
    unfold THRESH
    have := hS1start.1
    push_cast at *
    omega
  · rw [hA1]
    push_cast
    omega
  · rw [hA2]
    have := hS1start.1
    omega
  · rw [hA1]
    push_cast
    omega

/-- Claim C1 witness: the amended theorem applied to the concrete row
`9,9,1,2,1,2,1,2,9` (width 9), whose maximal alternating pattern sits at
positions 2..7 (length 6): position 4 is flagged. -/
theorem C1_pattern_flagged_witness :
    (7 < 9 ∧ 2 + 4 ≤ 7) ∧
    filterDitheringRow 9 (fun i => [9, 9, 1, 2, 1, 2, 1, 2, 9].getD i 0) 4 = true :=
  ⟨by decide,
    C1_pattern_flagged 9 (fun i => [9, 9, 1, 2, 1, 2, 1, 2, 9].getD i 0) 2 7
      (by decide) (by decide)
      (by
        have hd : ∀ i, i < 6 → 2 ≤ i → i + 2 ≤ 7 →
            (fun j => [9, 9, 1, 2, 1, 2, 1, 2, 9].getD j 0) i =
              (fun j => [9, 9, 1, 2, 1, 2, 1, 2, 9].getD j 0) (i + 2) := by decide
        intro i h1 h2
        exact hd i (by omega) h1 h2)
      (by
        have hd : ∀ i, i < 7 → 2 ≤ i → i + 1 ≤ 7 →
            (fun j => [9, 9, 1, 2, 1, 2, 1, 2, 9].getD j 0) i ≠
              (fun j => [9, 9, 1, 2, 1, 2, 1, 2, 9].getD j 0) (i + 1) := by decide
        intro i h1 h2
        exact hd i (by omega) h1 h2)
      (by decide) (by decide)
      4 (by decide) (by decide)⟩

/-- Claim C2, counterexample: a stride committed with `ditherStart = 0`,
`ditherEnd = 4` has length `4 > THRESH`, so `COMMIT_STRIDE` fires its
`memset`; the claim asserts every flag in `[start, end]` plus one extra
trailing position (position 5) is marked, but the `memset` of
`ditherLength + BLEED` bytes covers exactly positions 0..4 — position 5
stays clear. -/
theorem C2_counterexample :
    THRESH < (4 : Int) - 0 ∧
    commitStride 0 4 (fun _ => false) 4 = true ∧
    commitStride 0 4 (fun _ => false) 5 = false := by
  refine ⟨by decide, ?_, by decide⟩
  decide

/-- Claim C2 as amended: when `FilterDithering_Row` commits a stride, then
if the stride's length (`ditherEnd - ditherStart`) exceeds `THRESH = 2`, the
`memset` of `ditherLength + BLEED` bytes marks exactly the flags in
`[ditherStart, ditherEnd]` (the one-pixel bleed reaches the stride's end,
not one past it) on top of whatever was already set; if the length does not
exceed `THRESH`, the commit marks nothing.  In particular a row of flat runs
around a two-pixel transition `A,A,B,B` produces no flags at all. -/
theorem C2_commit_stride :
    (∀ (dS dE : Int) (flags : Nat → Bool) (i : Nat), THRESH < dE - dS →
      (commitStride dS dE flags i = true ↔
        ((dS ≤ (i : Int) ∧ (i : Int) ≤ dE) ∨ flags i = true))) ∧
    (∀ (dS dE : Int) (flags : Nat → Bool), dE - dS ≤ THRESH →
      commitStride dS dE flags = flags) ∧
    (∀ i, filterDitheringRow 9 (fun j => [9, 9, 9, 4, 4, 5, 5, 9, 9].getD j 0) i = false) := by
  refine ⟨?_, ?_, ?_⟩
  · intro dS dE flags i hlen
    constructor
    · intro h
      rcases commitStride_eq_true h with ⟨-, h2, h3⟩ | h4
      · exact Or.inl ⟨h2, h3⟩
      · exact Or.inr h4
    · rintro (⟨h2, h3⟩ | h4)
      · exact commitStride_sets flags hlen h2 h3
      · exact commitStride_monotone h4
  · intro dS dE flags hlen
    exact commitStride_of_le flags hlen
  · intro i
    by_cases hi : i < 9
    · interval_cases i <;> decide
    · have hcontra := filterDitheringRow_lt_width 9 (fun j => [9, 9, 9, 4, 4, 5, 5, 9, 9].getD j 0) i
      cases h : filterDitheringRow 9 (fun j => [9, 9, 9, 4, 4, 5, 5, 9, 9].getD j 0) i
      · rfl
      · exact absurd (hcontra h) (by omega)

/-- Claim C2 witness: the amended theorem instantiated on the long-stride
branch at a commit with start 1, end 5, flag 3. -/
theorem C2_commit_stride_witness :
    THRESH < (5 : Int) - 1 ∧
    (commitStride 1 5 (fun _ => false) 3 = true ↔
      (((1 : Int) ≤ (3 : Nat) ∧ ((3 : Nat) : Int) ≤ 5) ∨ (fun _ : Nat => false) 3 = true)) :=
  ⟨by decide, C2_commit_stride.1 1 5 (fun _ => false) 3 (by decide)⟩

/-- Claim C10: width-safety of `FilterDithering_Row` for rows of width at
least 2 — every flag it sets lies in `[0, W-1]` (the committed
`memset` range `ditherStart .. ditherEnd` never reaches past `W-1`), the
stride start is never negative (the `prev = -1` sentinel cannot equal a
pixel value, so no stride opens at column 0), and the function reads the
indexed row only at positions `0 .. W-1` (rows agreeing there produce
identical flags). -/
theorem C10_detector_safety (W : Nat) (row : Nat → Nat) (_hW : 2 ≤ W) :
    (∀ i, filterDitheringRow W row i = true → i ≤ W - 1) ∧
    (∀ n f0, 0 ≤ (runRow row 0 n (ditherInit row f0)).ditherStart) ∧
    (∀ row', (∀ i, i ≤ W - 1 → row i = row' i) →
      filterDitheringRow W row = filterDitheringRow W row') := by
  refine ⟨fun i => filterDitheringRow_lt_width W row i, ?_, ?_⟩
  · intro n f0
    exact (entry_inv row f0 n).2.1
  · intro row' hagree
    unfold filterDitheringRow filterDitheringRowOn
    rw [show ditherInit row (fun _ => false) = ditherInit row' (fun _ => false) from by
      unfold ditherInit; rw [hagree 0 (by omega)]]
    rw [runRow_congr (W - 1) 0 _ (fun j hj1 hj2 => hagree j (by omega))]

/-- Claim C10 witness: the safety theorem applied at width 6 on the
alternating row `1,2,1,2,1,2`: the flag the detector sets at position 5 is
within bounds. -/
theorem C10_detector_safety_witness :
    (2 ≤ 6 ∧ filterDitheringRow 6 (fun i => [1, 2, 1, 2, 1, 2].getD i 0) 5 = true) ∧
    5 ≤ 6 - 1 :=
  ⟨⟨by decide, by decide⟩,
    (C10_detector_safety 6 (fun i => [1, 2, 1, 2, 1, 2].getD i 0) (by decide)).1 5 (by decide)⟩

end MightyMike

/-! ## Lemmas about the filtered converter -/

namespace MightyMike

theorem commitStride_orFlags (dS dE : Int) (f g : Nat → Bool) :
    commitStride dS dE (orFlags f g) = orFlags (commitStride dS dE f) g := by
  unfold commitStride orFlags
  split
  · funext i
    dsimp only
    split <;> simp
  · rfl

theorem rowStep_orFlags (row : Nat → Nat) (x : Nat) (s : DitherState) (g : Nat → Bool) :
    rowStep row x { s with flags := orFlags s.flags g } =
      { rowStep row x s with flags := orFlags (rowStep row x s).flags g } := by
  unfold rowStep
  dsimp only
  split_ifs <;> simp [commitStride_orFlags]

theorem runRow_orFlags (row : Nat → Nat) :
    ∀ (n x : Nat) (s : DitherState) (g : Nat → Bool),
      runRow row x n { s with flags := orFlags s.flags g } =
        { runRow row x n s with flags := orFlags (runRow row x n s).flags g } := by
  intro n
  induction n with
  | zero => intro x s g; rfl
  | succ n ih =>
    intro x s g
    have h1 : runRow row x (n + 1) { s with flags := orFlags s.flags g } =
        runRow row (x + 1) n (rowStep row x { s with flags := orFlags s.flags g }) := rfl
    rw [h1, rowStep_orFlags, ih (x + 1) (rowStep row x s) g]
    rfl

/-- The detector on a dirty buffer is the detector on a clear buffer, union
the incoming contents: `FilterDithering_Row` never reads or clears a flag. -/
theorem filterDitheringRowOn_or (W : Nat) (row : Nat → Nat) (f0 : Nat → Bool) :
    filterDitheringRowOn W row f0 = orFlags (filterDitheringRow W row) f0 := by
  have hinit : ditherInit row f0 =
      { ditherInit row (fun _ => false) with
        flags := orFlags (ditherInit row (fun _ => false)).flags f0 } := by
    unfold ditherInit orFlags
    simp
  unfold filterDitheringRow filterDitheringRowOn
  dsimp only
  rw [hinit, runRow_orFlags row (W - 1) 0 (ditherInit row (fun _ => false)) f0]
  exact commitStride_orFlags _ _ _ f0

theorem convStep_flag_true (pal : Nat → PColor) (rowf : Nat → Nat) (base : Nat)
    (st : (Nat → PColor) × (Nat → Bool)) (x : Nat) (h : st.2 x = true) :
    convStep pal rowf base st x =
      (writeAt st.1 (base + x)
        { r := ((pal (rowf x)).r + (pal (rowf (x + 1))).r) / 2,
          g := ((pal (rowf x)).g + (pal (rowf (x + 1))).g) / 2,
          b := ((pal (rowf x)).b + (pal (rowf (x + 1))).b) / 2,
          a := (st.1 (base + x)).a },
       writeAt st.2 x false) := by
  simp only [convStep, h, if_true]

theorem convStep_flag_false (pal : Nat → PColor) (rowf : Nat → Nat) (base : Nat)
    (st : (Nat → PColor) × (Nat → Bool)) (x : Nat) (h : st.2 x = false) :
    convStep pal rowf base st x = (writeAt st.1 (base + x) (pal (rowf x)), st.2) := by
  simp only [convStep, h]
  rfl

/-- Characterization of the inner column loop of
`IndexedFramebufferToColor_FilterDithering` over columns `0 .. n-1`:
flags below `n` come out clear, flags at or above `n` are untouched,
destination cells outside `base .. base+n-1` are untouched, and each cell
`base + x` holds the blend of columns `x` and `x+1` when the flag was set
(keeping the destination's prior alpha byte) and the direct palette lookup
otherwise. -/
theorem convFold_char (pal : Nat → PColor) (rowf : Nat → Nat) (base : Nat)
    (dst : Nat → PColor) (flags : Nat → Bool) :
    ∀ n,
      (∀ x, x < n →
        ((List.range n).foldl (convStep pal rowf base) (dst, flags)).2 x = false) ∧
      (∀ x, n ≤ x →
        ((List.range n).foldl (convStep pal rowf base) (dst, flags)).2 x = flags x) ∧
      (∀ j, (j < base ∨ base + n ≤ j) →
        ((List.range n).foldl (convStep pal rowf base) (dst, flags)).1 j = dst j) ∧
      (∀ x, x < n →
        ((List.range n).foldl (convStep pal rowf base) (dst, flags)).1 (base + x) =
          if flags x then
            { r := ((pal (rowf x)).r + (pal (rowf (x + 1))).r) / 2,
              g := ((pal (rowf x)).g + (pal (rowf (x + 1))).g) / 2,
              b := ((pal (rowf x)).b + (pal (rowf (x + 1))).b) / 2,
              a := (dst (base + x)).a }
          else pal (rowf x)) := by
  intro n
  induction n with
  | zero =>
    refine ⟨fun x hx => absurd hx (by omega), fun x _ => rfl, fun j _ => rfl,
      fun x hx => absurd hx (by omega)⟩
  | succ n ih =>
    obtain ⟨ih1, ih2, ih3, ih4⟩ := ih
    rw [List.range_succ, List.foldl_append, List.foldl_cons, List.foldl_nil]
    have hstn : ((List.range n).foldl (convStep pal rowf base) (dst, flags)).2 n = flags n :=
      ih2 n (by omega)
    have hdn : ((List.range n).foldl (convStep pal rowf base) (dst, flags)).1 (base + n) =
        dst (base + n) :=
      ih3 (base + n) (by omega)
    by_cases hfn : flags n = true
    · rw [convStep_flag_true pal rowf base _ n (by rw [hstn, hfn])]
      refine ⟨?_, ?_, ?_, ?_⟩
      · intro x hx
        unfold writeAt
        dsimp only
        by_cases hxn : x = n
        · rw [if_pos hxn]
        · rw [if_neg hxn]
          exact ih1 x (by omega)
      · intro x hx
        unfold writeAt
        dsimp only
        rw [if_neg (by omega)]
        exact ih2 x (by omega)
      · intro j hj
        unfold writeAt
        dsimp only
        rw [if_neg (by omega)]
        exact ih3 j (by omega)
      · intro x hx
        unfold writeAt
        dsimp only
        by_cases hxn : x = n
        · subst hxn
          rw [if_pos rfl, if_pos hfn, hdn]
        · rw [if_neg (by omega)]
          exact ih4 x (by omega)
    · have hfn' : flags n = false := by
        cases h : flags n
        · rfl
        · exact absurd h hfn
      rw [convStep_flag_false pal rowf base _ n (by rw [hstn, hfn'])]
      refine ⟨?_, ?_, ?_, ?_⟩
      · intro x hx
        by_cases hxn : x = n
        · subst hxn
          exact hstn.trans hfn'
        · exact ih1 x (by omega)
      · intro x hx
        exact ih2 x (by omega)
      · intro j hj
        unfold writeAt
        dsimp only
        rw [if_neg (by omega)]
        exact ih3 j (by omega)
      · intro x hx
        unfold writeAt
        dsimp only
        by_cases hxn : x = n
        · subst hxn
          rw [if_pos rfl, if_neg (by rw [hfn']; exact Bool.false_ne_true)]
        · rw [if_neg (by omega)]
          exact ih4 x (by omega)

/-- Characterization of one full row of the filtered converter. -/
theorem convertRowFiltered_char (W : Nat) (pal : Nat → PColor) (rowf : Nat → Nat)
    (base : Nat) (dst : Nat → PColor) (f0 : Nat → Bool) (hW : 1 ≤ W) :
    (∀ x, x < W - 1 → (convertRowFiltered W pal rowf base (dst, f0)).2 x = false) ∧
    (∀ x, W - 1 ≤ x → (convertRowFiltered W pal rowf base (dst, f0)).2 x =
      filterDitheringRowOn W rowf f0 x) ∧
    (∀ j, (j < base ∨ base + W ≤ j) →
      (convertRowFiltered W pal rowf base (dst, f0)).1 j = dst j) ∧
    ((convertRowFiltered W pal rowf base (dst, f0)).1 (base + (W - 1)) = pal (rowf (W - 1))) ∧
    (∀ x, x < W - 1 → (convertRowFiltered W pal rowf base (dst, f0)).1 (base + x) =
      if filterDitheringRowOn W rowf f0 x then
        { r := ((pal (rowf x)).r + (pal (rowf (x + 1))).r) / 2,
          g := ((pal (rowf x)).g + (pal (rowf (x + 1))).g) / 2,
          b := ((pal (rowf x)).b + (pal (rowf (x + 1))).b) / 2,
          a := (dst (base + x)).a }
      else pal (rowf x)) := by
  obtain ⟨h1, h2, h3, h4⟩ :=
    convFold_char pal rowf base dst (filterDitheringRowOn W rowf f0) (W - 1)
  unfold convertRowFiltered
  dsimp only
  refine ⟨h1, h2, ?_, ?_, ?_⟩
  · intro j hj
    unfold writeAt
    rw [if_neg (by omega)]
    exact h3 j (by omega)
  · unfold writeAt
    rw [if_pos rfl]
  · intro x hx
    unfold writeAt
    rw [if_neg (by omega)]
    exact h4 x hx

/-- After any number of rows, the worker's flag buffer is clear below
`W - 1` (each row's column loop clears every flag it reads). -/
theorem convertFiltered_flags_clean (W : Nat) (pal : Nat → PColor) (indexed : Nat → Nat)
    (firstRow : Nat) (hW : 1 ≤ W) :
    ∀ (n : Nat) (dst : Nat → PColor) (f0 : Nat → Bool),
      (∀ x, x < W - 1 → f0 x = false) →
      ∀ x, x < W - 1 →
        (convertFiltered W pal indexed firstRow n (dst, f0)).2 x = false := by
  intro n
  induction n with
  | zero => intro dst f0 h0 x hx; exact h0 x hx
  | succ n ih =>
    intro dst f0 h0 x hx
    unfold convertFiltered
    rw [List.range_succ, List.foldl_append, List.foldl_cons, List.foldl_nil]
    exact (convertRowFiltered_char W pal (rowOf indexed W (firstRow + n))
      ((firstRow + n) * W)
      ((List.range n).foldl (fun st2 y =>
        convertRowFiltered W pal (rowOf indexed W (firstRow + y)) ((firstRow + y) * W) st2)
        (dst, f0)).1
      ((List.range n).foldl (fun st2 y =>
        convertRowFiltered W pal (rowOf indexed W (firstRow + y)) ((firstRow + y) * W) st2)
        (dst, f0)).2
      hW).1 x hx

/-- Destination cells outside the converted row range are untouched. -/
theorem convertFiltered_outside (W : Nat) (pal : Nat → PColor) (indexed : Nat → Nat)
    (firstRow : Nat) (hW : 1 ≤ W) :
    ∀ (n : Nat) (st : (Nat → PColor) × (Nat → Bool)) (j : Nat),
      (j < firstRow * W ∨ (firstRow + n) * W ≤ j) →
      (convertFiltered W pal indexed firstRow n st).1 j = st.1 j := by
  intro n
  induction n with
  | zero => intro st j _; rfl
  | succ n ih =>
    intro st j hj
    unfold convertFiltered
    rw [List.range_succ, List.foldl_append, List.foldl_cons, List.foldl_nil]
    have hrow := (convertRowFiltered_char W pal (rowOf indexed W (firstRow + n))
      ((firstRow + n) * W)
      ((List.range n).foldl (fun st2 y =>
        convertRowFiltered W pal (rowOf indexed W (firstRow + y)) ((firstRow + y) * W) st2)
        st).1
      ((List.range n).foldl (fun st2 y =>
        convertRowFiltered W pal (rowOf indexed W (firstRow + y)) ((firstRow + y) * W) st2)
        st).2
      hW).2.2.1 j
      (by
        have h2 : (firstRow + (n + 1)) * W = (firstRow + n) * W + W := by ring
        rcases hj with hj | hj
        · exact Or.inl (by nlinarith [Nat.mul_le_mul_right W (Nat.le_add_right firstRow n)])
        · right
          omega)
    rw [hrow]
    exact ih st j
      (by
        have h2 : (firstRow + (n + 1)) * W = (firstRow + n) * W + W := by ring
        rcases hj with hj | hj
        · exact Or.inl hj
        · right
          omega)

/-- The color output of one converted row depends on the incoming
destination only through the row's own cells, and on the incoming flags only
below `W - 1`. -/
theorem convertRowFiltered_congr (W : Nat) (pal : Nat → PColor) (rowf : Nat → Nat)
    (base : Nat) (d d' : Nat → PColor) (f f' : Nat → Bool)
    (hd : ∀ x, x < W → d (base + x) = d' (base + x))
    (hf : ∀ x, x < W - 1 → f x = f' x) (hW : 1 ≤ W) :
    ∀ x, x < W →
      (convertRowFiltered W pal rowf base (d, f)).1 (base + x) =
      (convertRowFiltered W pal rowf base (d', f')).1 (base + x) := by
  intro x hx
  obtain ⟨-, -, -, hlast, hmid⟩ := convertRowFiltered_char W pal rowf base d f hW
  obtain ⟨-, -, -, hlast', hmid'⟩ := convertRowFiltered_char W pal rowf base d' f' hW
  by_cases hxl : x = W - 1
  · subst hxl
    rw [hlast, hlast']
  · have hx1 : x < W - 1 := by omega
    rw [hmid x hx1, hmid' x hx1]
    have hflag : filterDitheringRowOn W rowf f x = filterDitheringRowOn W rowf f' x := by
      rw [filterDitheringRowOn_or, filterDitheringRowOn_or]
      unfold orFlags
      rw [hf x hx1]
    rw [hflag, hd x hx]

end MightyMike

/-! ## Claim theorems about the converter -/

namespace MightyMike

/-- Claim C3: for every pixel position flagged by the detector (other than
the last in its row), the filtered conversion writes each output color
channel (red, green, blue — the alpha byte is not written by the blend) as
the arithmetic mean of the palette colors of that pixel and its immediate
right neighbor, truncated toward zero: `(c1 + c2) >> 1` per channel. -/
theorem C3_blend_average (W : Nat) (pal : Nat → PColor) (rowf : Nat → Nat)
    (base : Nat) (dst : Nat → PColor) (f0 : Nat → Bool) (x : Nat)
    (hx : x < W - 1) (hflag : filterDitheringRowOn W rowf f0 x = true) :
    ((convertRowFiltered W pal rowf base (dst, f0)).1 (base + x)).r =
      ((pal (rowf x)).r + (pal (rowf (x + 1))).r) / 2 ∧
    ((convertRowFiltered W pal rowf base (dst, f0)).1 (base + x)).g =
      ((pal (rowf x)).g + (pal (rowf (x + 1))).g) / 2 ∧
    ((convertRowFiltered W pal rowf base (dst, f0)).1 (base + x)).b =
      ((pal (rowf x)).b + (pal (rowf (x + 1))).b) / 2 := by
  have hW : 1 ≤ W := by omega
  obtain ⟨-, -, -, -, hmid⟩ := convertRowFiltered_char W pal rowf base dst f0 hW
  rw [hmid x hx, if_pos hflag]
  exact ⟨rfl, rfl, rfl⟩

/-- Claim C3 witness: the spec's scenario — palette index 10 maps to
`(255,0,0,255)` and index 20 to `(0,0,255,255)`; on the row `10,20,10,20`
position 0 is flagged, and the blended output channels are
`(127, 0, 127)` (the mean of the alpha channels would be 255; the blend
leaves the destination's alpha byte in place). -/
theorem C3_blend_average_witness :
    (0 < 4 - 1 ∧
      filterDitheringRowOn 4 (fun i => [10, 20, 10, 20].getD i 0) (fun _ => false) 0 = true) ∧
    ((convertRowFiltered 4
        (fun i => if i = 10 then ⟨255, 0, 0, 255⟩ else if i = 20 then ⟨0, 0, 255, 255⟩
          else ⟨0, 0, 0, 0⟩)
        (fun i => [10, 20, 10, 20].getD i 0) 0 ((fun _ => ⟨9, 9, 9, 9⟩), fun _ => false)).1
        (0 + 0)).r = 127 ∧
    ((convertRowFiltered 4
        (fun i => if i = 10 then ⟨255, 0, 0, 255⟩ else if i = 20 then ⟨0, 0, 255, 255⟩
          else ⟨0, 0, 0, 0⟩)
        (fun i => [10, 20, 10, 20].getD i 0) 0 ((fun _ => ⟨9, 9, 9, 9⟩), fun _ => false)).1
        (0 + 0)).g = 0 ∧
    ((convertRowFiltered 4
        (fun i => if i = 10 then ⟨255, 0, 0, 255⟩ else if i = 20 then ⟨0, 0, 255, 255⟩
          else ⟨0, 0, 0, 0⟩)
        (fun i => [10, 20, 10, 20].getD i 0) 0 ((fun _ => ⟨9, 9, 9, 9⟩), fun _ => false)).1
        (0 + 0)).b = 127 :=
  ⟨⟨by decide, by decide⟩,
    (C3_blend_average 4
      (fun i => if i = 10 then ⟨255, 0, 0, 255⟩ else if i = 20 then ⟨0, 0, 255, 255⟩
        else ⟨0, 0, 0, 0⟩)
      (fun i => [10, 20, 10, 20].getD i 0) 0 (fun _ => ⟨9, 9, 9, 9⟩) (fun _ => false) 0
      (by decide) (by decide)).1.trans (by decide),
    (C3_blend_average 4
      (fun i => if i = 10 then ⟨255, 0, 0, 255⟩ else if i = 20 then ⟨0, 0, 255, 255⟩
        else ⟨0, 0, 0, 0⟩)
      (fun i => [10, 20, 10, 20].getD i 0) 0 (fun _ => ⟨9, 9, 9, 9⟩) (fun _ => false) 0
      (by decide) (by decide)).2.1.trans (by decide),
    (C3_blend_average 4
      (fun i => if i = 10 then ⟨255, 0, 0, 255⟩ else if i = 20 then ⟨0, 0, 255, 255⟩
        else ⟨0, 0, 0, 0⟩)
      (fun i => [10, 20, 10, 20].getD i 0) 0 (fun _ => ⟨9, 9, 9, 9⟩) (fun _ => false) 0
      (by decide) (by decide)).2.2.trans (by decide)⟩

/-- Claim C4, counterexample: on the alternating row `1,2,1,2,1,2` of width
6, the detector flags position 5 = `W - 1`; the converter's column loop only
visits positions `0 .. W - 2`, so after the row is converted the flag at
position `W - 1` is still set — the flag buffer is NOT entirely clear.
(The leftover flag is harmless only because the converter never reads that
position.) -/
theorem C4_counterexample :
    (convertRowFiltered 6 (fun _ => ⟨0, 0, 0, 0⟩) (fun i => [1, 2, 1, 2, 1, 2].getD i 0) 0
      ((fun _ => ⟨0, 0, 0, 0⟩), fun _ => false)).2 5 = true := by
  decide

/-- Claim C4 as amended: after the filtered converter consumes a row's
dither-stride flag buffer, every position `0 .. W-2` of the buffer is clear
again; the last position `W - 1` (which the converter never reads) may
retain a flag set by the detector. -/
theorem C4_flags_cleared (W : Nat) (pal : Nat → PColor) (rowf : Nat → Nat)
    (base : Nat) (dst : Nat → PColor) (f0 : Nat → Bool) :
    ∀ x, x < W - 1 → (convertRowFiltered W pal rowf base (dst, f0)).2 x = false := by
  intro x hx
  exact (convertRowFiltered_char W pal rowf base dst f0 (by omega)).1 x hx

/-- Claim C4 witness: the amended theorem on the same width-6 alternating
row: position 2 (flagged by the detector) is clear after conversion. -/
theorem C4_flags_cleared_witness :
    (2 < 6 - 1) ∧
    (convertRowFiltered 6 (fun _ => ⟨0, 0, 0, 0⟩) (fun i => [1, 2, 1, 2, 1, 2].getD i 0) 0
      ((fun _ => ⟨0, 0, 0, 0⟩), fun _ => false)).2 2 = false :=
  ⟨by decide,
    C4_flags_cleared 6 (fun _ => ⟨0, 0, 0, 0⟩) (fun i => [1, 2, 1, 2, 1, 2].getD i 0) 0
      (fun _ => ⟨0, 0, 0, 0⟩) (fun _ => false) 2 (by decide)⟩

theorem convertFiltered_one (W : Nat) (pal : Nat → PColor) (indexed : Nat → Nat)
    (r : Nat) (st : (Nat → PColor) × (Nat → Bool)) :
    convertFiltered W pal indexed r 1 st =
      convertRowFiltered W pal (rowOf indexed W r) (r * W) st := by
  simp [convertFiltered, List.range_succ]

theorem convertNoFilter_one (W : Nat) (pal : Nat → PColor) (indexed : Nat → Nat)
    (r : Nat) (dst : Nat → PColor) :
    convertNoFilter W pal indexed r 1 dst =
      (List.range W).foldl
        (fun d2 x => writeAt d2 (r * W + x) (pal (indexed (r * W + x)))) dst := by
  simp [convertNoFilter, List.range_succ]

/-- The value the filtered converter leaves at pixel `(x, firstRow + y)` is
exactly what a one-row conversion of that row over the incoming destination
buffer (and a clear flag buffer) produces: it depends only on that row's
indexed pixels, the palette, and the incoming destination cell. -/
theorem convertFiltered_row_value (W : Nat) (pal : Nat → PColor) (indexed : Nat → Nat)
    (firstRow : Nat) (hW : 1 ≤ W) :
    ∀ (n : Nat) (dst : Nat → PColor) (f0 : Nat → Bool),
      (∀ x, x < W - 1 → f0 x = false) →
      ∀ y x, y < n → x < W →
        (convertFiltered W pal indexed firstRow n (dst, f0)).1 ((firstRow + y) * W + x) =
        (convertRowFiltered W pal (rowOf indexed W (firstRow + y)) ((firstRow + y) * W)
          (dst, fun _ => false)).1 ((firstRow + y) * W + x) := by
  intro n
  induction n with
  | zero => intro dst f0 h0 y x hy hx; omega
  | succ n ih =>
    intro dst f0 h0 y x hy hx
    unfold convertFiltered
    rw [List.range_succ, List.foldl_append, List.foldl_cons, List.foldl_nil]
    by_cases hyn : y = n
    · subst hyn
      refine convertRowFiltered_congr W pal (rowOf indexed W (firstRow + y))
        ((firstRow + y) * W)
        ((List.range y).foldl (fun st2 z =>
          convertRowFiltered W pal (rowOf indexed W (firstRow + z)) ((firstRow + z) * W) st2)
          (dst, f0)).1
        dst
        ((List.range y).foldl (fun st2 z =>
          convertRowFiltered W pal (rowOf indexed W (firstRow + z)) ((firstRow + z) * W) st2)
          (dst, f0)).2
        (fun _ => false) ?_ ?_ hW x hx
      · intro z hz
        exact convertFiltered_outside W pal indexed firstRow hW y (dst, f0)
          ((firstRow + y) * W + z) (Or.inr (by omega))
      · intro z hz
        exact convertFiltered_flags_clean W pal indexed firstRow hW y dst f0 h0 z hz
    · have hy' : y < n := by omega
      have hlt : (firstRow + y) * W + x < (firstRow + n) * W := by
        have h2 : (firstRow + y + 1) * W ≤ (firstRow + n) * W :=
          Nat.mul_le_mul_right W (by omega)
        have h3 : (firstRow + y + 1) * W = (firstRow + y) * W + W := by ring
        omega
      have hrow := (convertRowFiltered_char W pal (rowOf indexed W (firstRow + n))
        ((firstRow + n) * W)
        ((List.range n).foldl (fun st2 z =>
          convertRowFiltered W pal (rowOf indexed W (firstRow + z)) ((firstRow + z) * W) st2)
          (dst, f0)).1
        ((List.range n).foldl (fun st2 z =>
          convertRowFiltered W pal (rowOf indexed W (firstRow + z)) ((firstRow + z) * W) st2)
          (dst, f0)).2
        hW).2.2.1 ((firstRow + y) * W + x) (Or.inl hlt)
      exact hrow.trans (ih dst f0 h0 y x hy' hx)

/-- Claim C6: converting a whole row range with one call of the filtered
(or unfiltered) converter writes exactly the same output as successive
single-row calls threading the same state; and each row's output pixels are
those of a single-row conversion of that row alone over the incoming
destination (with a clear flag buffer), so a row's output never depends on
other rows' indexed pixels or on prior rows' processing. -/
theorem C6_range_partitionable (W : Nat) (pal : Nat → PColor) (indexed : Nat → Nat)
    (firstRow numRows : Nat) :
    (∀ st, convertFiltered W pal indexed firstRow numRows st =
      (List.range numRows).foldl
        (fun st2 y => convertFiltered W pal indexed (firstRow + y) 1 st2) st) ∧
    (∀ dst, convertNoFilter W pal indexed firstRow numRows dst =
      (List.range numRows).foldl
        (fun d y => convertNoFilter W pal indexed (firstRow + y) 1 d) dst) ∧
    (∀ (dst : Nat → PColor) (f0 : Nat → Bool), 1 ≤ W →
      (∀ x, x < W - 1 → f0 x = false) →
      ∀ y x, y < numRows → x < W →
        (convertFiltered W pal indexed firstRow numRows (dst, f0)).1
            ((firstRow + y) * W + x) =
          (convertRowFiltered W pal (rowOf indexed W (firstRow + y)) ((firstRow + y) * W)
            (dst, fun _ => false)).1 ((firstRow + y) * W + x)) := by
  refine ⟨?_, ?_, ?_⟩
  · intro st
    show (List.range numRows).foldl
        (fun st2 y =>
          convertRowFiltered W pal (rowOf indexed W (firstRow + y)) ((firstRow + y) * W) st2)
        st = _
    refine List.foldl_ext _ _ _ ?_
    intro a y hy
    rw [convertFiltered_one]
  · intro dst
    show (List.range numRows).foldl
        (fun d y =>
          (List.range W).foldl
            (fun d2 x =>
              writeAt d2 ((firstRow + y) * W + x) (pal (indexed ((firstRow + y) * W + x))))
            d)
        dst = _
    refine List.foldl_ext _ _ _ ?_
    intro a y hy
    rw [convertNoFilter_one]
  · intro dst f0 hW h0 y x hy hx
    exact convertFiltered_row_value W pal indexed firstRow hW numRows dst f0 h0 y x hy hx

/-- Claim C6 witness: the theorem at width 2, two rows, on a concrete
framebuffer, palette, and clean flag buffer, evaluated at pixel (1, 1). -/
theorem C6_range_partitionable_witness :
    (1 ≤ 2 ∧ (∀ x, x < 2 - 1 → (fun _ : Nat => false) x = false) ∧ 1 < 2 ∧ 1 < 2) ∧
    (convertFiltered 2 (fun i => ⟨i, i, i, i⟩) (fun i => i % 5) 0 2
        ((fun _ => ⟨0, 0, 0, 0⟩), fun _ => false)).1 ((0 + 1) * 2 + 1) =
      (convertRowFiltered 2 (fun i => ⟨i, i, i, i⟩) (rowOf (fun i => i % 5) 2 (0 + 1))
        ((0 + 1) * 2) ((fun _ => ⟨0, 0, 0, 0⟩), fun _ => false)).1 ((0 + 1) * 2 + 1) :=
  ⟨⟨by decide, by decide, by decide, by decide⟩,
    (C6_range_partitionable 2 (fun i => ⟨i, i, i, i⟩) (fun i => i % 5) 0 2).2.2
      (fun _ => ⟨0, 0, 0, 0⟩) (fun _ => false) (by decide) (by decide) 1 1
      (by decide) (by decide)⟩

end MightyMike

/-! ## Lemmas about the pixel doubler -/

namespace MightyMike

/-- Characterization of the horizontal doubling pass over the first `n`
source pixels: cells outside `dbase .. dbase + 2n - 1` are untouched, and
cell `dbase + 2x + i` (for `i < 2`) holds source pixel `sbase + x`. -/
theorem doubleRowFold_char (src : Nat → PColor) (sbase dbase : Nat) :
    ∀ (n : Nat) (d : Nat → PColor),
      (∀ j, (j < dbase ∨ dbase + 2 * n ≤ j) →
        ((List.range n).foldl
          (fun d2 x =>
            writeAt (writeAt d2 (dbase + 2 * x) (src (sbase + x))) (dbase + 2 * x + 1)
              (src (sbase + x))) d) j = d j) ∧
      (∀ x i, x < n → i < 2 →
        ((List.range n).foldl
          (fun d2 x =>
            writeAt (writeAt d2 (dbase + 2 * x) (src (sbase + x))) (dbase + 2 * x + 1)
              (src (sbase + x))) d) (dbase + 2 * x + i) = src (sbase + x)) := by
  intro n
  induction n with
  | zero =>
    intro d
    exact ⟨fun j _ => rfl, fun x i hx _ => absurd hx (by omega)⟩
  | succ n ih =>
    intro d
    obtain ⟨ih1, ih2⟩ := ih d
    rw [List.range_succ, List.foldl_append, List.foldl_cons, List.foldl_nil]
    constructor
    · intro j hj
      unfold writeAt
      rw [if_neg (by omega), if_neg (by omega)]
      exact ih1 j (by omega)
    · intro x i hx hi
      by_cases hxn : x = n
      · subst hxn
        interval_cases i
        · unfold writeAt
          rw [if_neg (by omega), if_pos (by omega)]
        · unfold writeAt
          rw [if_pos (by omega)]
      · unfold writeAt
        rw [if_neg (by omega), if_neg (by omega)]
        exact ih2 x i (by omega) hi

/-- Characterization of one full source row of `DoublePixels` (horizontal
doubling followed by the bulk row copy): cells outside the row's `4W`
destination cells are untouched, and destination cell
`dbase + jj*(2W) + X` (row copy `jj < 2`, column `X < 2W`) holds source
pixel `sbase + X/2`. -/
theorem doublePixels_rowOp_char (W : Nat) (src : Nat → PColor) (sbase dbase : Nat)
    (d : Nat → PColor) :
    (∀ j, (j < dbase ∨ dbase + 4 * W ≤ j) →
      copyRun (doubleRowH W src sbase dbase d) dbase (dbase + 2 * W) (2 * W) j = d j) ∧
    (∀ X jj, X < 2 * W → jj < 2 →
      copyRun (doubleRowH W src sbase dbase d) dbase (dbase + 2 * W) (2 * W)
          (dbase + jj * (2 * W) + X) = src (sbase + X / 2)) := by
  obtain ⟨h1, h2⟩ := doubleRowFold_char src sbase dbase W d
  constructor
  · intro j hj
    unfold copyRun
    rw [if_neg (by omega)]
    exact h1 j (by omega)
  · intro X jj hX hjj
    have hX2 : dbase + 2 * (X / 2) + (X % 2) = dbase + X := by omega
    have hval : doubleRowH W src sbase dbase d (dbase + X) = src (sbase + X / 2) := by
      rw [← hX2]
      exact h2 (X / 2) (X % 2) (by omega) (by omega)
    interval_cases jj
    · unfold copyRun
      rw [if_neg (by omega)]
      simpa using hval
    · unfold copyRun
      rw [if_pos (by constructor <;> omega)]
      have hidx : dbase + (dbase + 1 * (2 * W) + X - (dbase + 2 * W)) = dbase + X := by omega
      rw [hidx]
      exact hval

/-- Claim C7: `DoublePixels` replicates each source pixel `(x, firstRow+y)`
into the 2x2 destination block at `(2x+i, 2(firstRow+y)+j)`, `i, j < 2`,
with no blending (the destination is `2W` pixels wide). -/
theorem C7_double_pixels (W : Nat) (src dst : Nat → PColor) (firstRow numRows : Nat) :
    ∀ y x i j, y < numRows → x < W → i < 2 → j < 2 →
      doublePixels W src dst firstRow numRows
          ((2 * (firstRow + y) + j) * (2 * W) + (2 * x + i)) =
        src ((firstRow + y) * W + x) := by
  induction numRows with
  | zero => intro y x i j hy; omega
  | succ n ih =>
    intro y x i j hy hx hi hj
    unfold doublePixels
    rw [List.range_succ, List.foldl_append, List.foldl_cons, List.foldl_nil]
    dsimp only
    have hidx : (2 * (firstRow + y) + j) * (2 * W) + (2 * x + i) =
        (firstRow + y) * (W * 4) + j * (2 * W) + (2 * x + i) := by ring
    by_cases hyn : y = n
    · subst hyn
      obtain ⟨-, h2⟩ := doublePixels_rowOp_char W src ((firstRow + y) * W)
        ((firstRow + y) * (W * 4))
        ((List.range y).foldl
          (fun d z =>
            copyRun (doubleRowH W src ((firstRow + z) * W) ((firstRow + z) * (W * 4)) d)
              ((firstRow + z) * (W * 4)) ((firstRow + z) * (W * 4) + 2 * W) (2 * W)) dst)
      have h3 := h2 (2 * x + i) j (by omega) hj
      rw [show (firstRow + y) * (W * 4) + j * (2 * W) + (2 * x + i) =
        (2 * (firstRow + y) + j) * (2 * W) + (2 * x + i) from by ring] at h3
      rw [h3, show (2 * x + i) / 2 = x from by omega]
    · have hylt : y < n := by omega
      obtain ⟨h1, -⟩ := doublePixels_rowOp_char W src ((firstRow + n) * W)
        ((firstRow + n) * (W * 4))
        ((List.range n).foldl
          (fun d z =>
            copyRun (doubleRowH W src ((firstRow + z) * W) ((firstRow + z) * (W * 4)) d)
              ((firstRow + z) * (W * 4)) ((firstRow + z) * (W * 4) + 2 * W) (2 * W)) dst)
      have hlt : (2 * (firstRow + y) + j) * (2 * W) + (2 * x + i) <
          (firstRow + n) * (W * 4) := by
        have hstep : (firstRow + y + 1) * (W * 4) ≤ (firstRow + n) * (W * 4) :=
          Nat.mul_le_mul_right (W * 4) (by omega)
        have hexp : (firstRow + y + 1) * (W * 4) =
            (2 * (firstRow + y)) * (2 * W) + 4 * W := by ring
        have hexp2 : (2 * (firstRow + y) + j) * (2 * W) =
            (2 * (firstRow + y)) * (2 * W) + j * (2 * W) := by ring
        have h2x : 2 * x + i < 2 * W := by omega
        have hjE : j * (2 * W) + 2 * W ≤ 4 * W := by
          interval_cases j <;> omega
        omega
      rw [h1 _ (Or.inl hlt)]
      exact ih y x i j hylt hx hi hj

/-- Claim C7 witness: doubling a 2-wide, 1-row source: destination pixel
`(2*1+1, 2*0+1)` (bottom-right of the block of source pixel `(1,0)`) equals
source pixel `(1,0)`. -/
theorem C7_double_pixels_witness :
    (0 < 1 ∧ 1 < 2 ∧ 1 < 2 ∧ 1 < 2) ∧
    doublePixels 2 (fun i => ⟨i, 2 * i, 3 * i, 255⟩) (fun _ => ⟨0, 0, 0, 0⟩) 0 1
        ((2 * (0 + 0) + 1) * (2 * 2) + (2 * 1 + 1)) =
      (fun i => (⟨i, 2 * i, 3 * i, 255⟩ : PColor)) ((0 + 0) * 2 + 1) :=
  ⟨⟨by decide, by decide, by decide, by decide⟩,
    C7_double_pixels 2 (fun i => ⟨i, 2 * i, 3 * i, 255⟩) (fun _ => ⟨0, 0, 0, 0⟩) 0 1
      0 1 1 1 (by decide) (by decide) (by decide) (by decide)⟩

end MightyMike

/-! ## Renderer start-up and palette fades -/

namespace MightyMike

/-- Claim C8: when the backend reports a maximum texture size below the
game's requirement (`kFrameTextureWidth`), `GLRender_Init` does not abort —
it raises the non-fatal `DoAlert` warning exactly when
`maxTextureSize < kFrameTextureWidth` and continues, and it sets
`gCanDoHQStretch` to true exactly when `maxTextureSize` is at least twice
`kFrameTextureWidth` (on non-OSXPPC builds; OSXPPC builds force it off). -/
theorem C8_capability_shortfall (maxTextureSize : Int) (osxppc : Bool) :
    glRenderInit true maxTextureSize osxppc =
      InitOutcome.ok (decide (maxTextureSize < (kFrameTextureWidth : Int)))
        (if osxppc then false
         else decide ((2 * kFrameTextureWidth : Int) ≤ maxTextureSize)) ∧
    (∀ msg, glRenderInit true maxTextureSize osxppc ≠ InitOutcome.fatal msg) := by
  constructor
  · unfold glRenderInit
    simp
  · intro msg h
    unfold glRenderInit at h
    simp at h

theorem foldl_fadePass_backup :
    ∀ (l : List Nat) (t : PaletteState), (l.foldl fadePass t).backup = t.backup := by
  intro l
  induction l with
  | nil => intro t; rfl
  | cons b l ih => intro t; exact (ih (fadePass t b)).trans rfl

/-- Claim C9, counterexample: `FadeOutGameCLUT` never calls
`RestoreBackUpPalette`; its darkening loop ends at brightness 0, so on
return the palette entries 0..254 hold black, not their pre-fade contents.
Starting from an all-white palette with the screen not blanked, entry 0
comes back `0xFF000000`, not `0xFFFFFFFF`. -/
theorem C9_counterexample :
    (FadeOutGameCLUT
      { game := fun _ => 0xFFFFFFFF, backup := fun _ => 0, blanked := false }).game 0 ≠
      0xFFFFFFFF := by
  decide

/-- Claim C9 as amended: `FadeInGameCLUT` restores `gGamePalette` from the
backup snapshot taken at the start of the fade, so the palette equals its
pre-fade contents when it returns; `FadeOutGameCLUT` intentionally leaves
the palette at the final zero-brightness pass (the screen is blanked) and
retains the pre-fade contents only in the backup snapshot, from which the
next fade-in restores. -/
theorem C9_fade_restore (s : PaletteState) :
    (FadeInGameCLUT s).game = s.game ∧
    (s.blanked = false → (FadeOutGameCLUT s).backup = s.game) := by
  constructor
  · unfold FadeInGameCLUT RestoreBackUpPalette MakeBackUpPalette
    dsimp only
    rw [foldl_fadePass_backup]
  · intro hb
    unfold FadeOutGameCLUT MakeBackUpPalette
    rw [if_neg (by rw [hb]; exact Bool.false_ne_true)]
    dsimp only
    rw [foldl_fadePass_backup]

/-- Claim C9 witness: the amended theorem on a concrete palette state
(all entries 7, screen not blanked). -/
theorem C9_fade_restore_witness :
    ((FadeInGameCLUT { game := fun _ => 7, backup := fun _ => 0, blanked := false }).game =
      fun _ => 7) ∧
    ((false = false) ∧
      (FadeOutGameCLUT { game := fun _ => 7, backup := fun _ => 0, blanked := false }).backup =
        fun _ => 7) :=
  ⟨(C9_fade_restore { game := fun _ => 7, backup := fun _ => 0, blanked := false }).1,
    rfl,
    (C9_fade_restore { game := fun _ => 7, backup := fun _ => 0, blanked := false }).2 rfl⟩

end MightyMike
